import Mathlib

/-!
Adafruit_PWMServoDriverGroup: a shallow embedding of `Adafruit_PWMServoDriverGroup.cpp`: a group of PCA9685
driver chips that is addressed through one flat servo numbering.

* `uint8_t` / `uint16_t` / `uint32_t` values are natural numbers; where the C++
  code narrows a promoted `int` back to `uint8_t` the reduction `% 256` is
  written out.
* An argument passed for a parameter `uint8_t num` (a global servo number) is
  narrowed with `% 256` on entry, as the C++ call does: it is the one parameter
  whose documented range, 0 to `nDrivers * nServosEach - 1`, can exceed its type.
* `_drivers[i]` is a read of a list; a read past the end, and a division by
  zero, are undefined behaviour in C++ and are reported as a `Fault`.
* The group records every call it delegates to a chip, together with the index
  of the chip, in the ghost field `calls` (oldest call first).
-/

/-- Undefined behaviour the C++ code can run into. -/
inductive Fault where
  | divisionByZero
  | outOfBounds
  deriving DecidableEq, Repr

/-- One call on a single `Adafruit_PWMServoDriver`, with its arguments. The
`float` argument of `setPWMFreq` is only passed through by the group and is
carried as its 32-bit pattern. -/
inductive Call where
  | begin (prescale : Nat)
  | reset
  | sleep
  | wakeup
  | setExtClk (prescale : Nat)
  | setPWMFreq (freq : Nat)
  | setOutputMode (totempole : Bool)
  | getPWM (num : Nat) (off : Bool)
  | setPWM (num : Nat) (on_ : Nat) (off : Nat)
  | setPin (num : Nat) (val : Nat) (invert : Bool)
  | readPrescale
  | writeMicroseconds (num : Nat) (microseconds : Nat)
  | getOscillatorFrequency
  | setOscillatorFrequency (freq : Nat)
  deriving DecidableEq, Repr

/-- Modelled from the spec: the per-chip driver class `Adafruit_PWMServoDriver`
(declared in `Adafruit_PWMServoDriver.h`, which is not among the sources). The
spec treats it as an external collaborator built from a bus address, with a
tracked nominal oscillator frequency and a fixed operation set. Its bus traffic
is not described, so what the hardware answers is kept as data of the handle:
`beginReply`, `getPWMReply`, `setPWMReply` and `prescaleReply`. -/
structure Adafruit_PWMServoDriver where
  i2caddr : Nat
  oscillator_freq : Nat
  beginReply : Nat → Bool
  getPWMReply : Nat → Bool → Nat
  setPWMReply : Nat → Nat → Nat → Nat
  prescaleReply : Nat

namespace Adafruit_PWMServoDriver

/-- Modelled from the spec: `initialize(prescaleOverride) -> bool`. -/
def begin (c : Adafruit_PWMServoDriver) (prescale : Nat) : Bool × Adafruit_PWMServoDriver :=
  (c.beginReply prescale, c)

/-- Modelled from the spec: `reset() -> void`. -/
def reset (c : Adafruit_PWMServoDriver) : Unit × Adafruit_PWMServoDriver := ((), c)

/-- Modelled from the spec: `sleep() -> void`. -/
def sleep (c : Adafruit_PWMServoDriver) : Unit × Adafruit_PWMServoDriver := ((), c)

/-- Modelled from the spec: `wake() -> void`. -/
def wakeup (c : Adafruit_PWMServoDriver) : Unit × Adafruit_PWMServoDriver := ((), c)

/-- Modelled from the spec: `configureExternalClock(prescale) -> void`. -/
def setExtClk (c : Adafruit_PWMServoDriver) (_prescale : Nat) :
    Unit × Adafruit_PWMServoDriver := ((), c)

/-- Modelled from the spec: `setFrequency(hz: float) -> void`. -/
def setPWMFreq (c : Adafruit_PWMServoDriver) (_freq : Nat) :
    Unit × Adafruit_PWMServoDriver := ((), c)

/-- Modelled from the spec: `setOutputMode(totemPole: bool) -> void`. -/
def setOutputMode (c : Adafruit_PWMServoDriver) (_totempole : Bool) :
    Unit × Adafruit_PWMServoDriver := ((), c)

/-- Modelled from the spec: `getChannelTiming(localIndex, wantOffTick) -> uint16`. -/
def getPWM (c : Adafruit_PWMServoDriver) (num : Nat) (off : Bool) :
    Nat × Adafruit_PWMServoDriver := (c.getPWMReply num off, c)

/-- Modelled from the spec: `setChannelTiming(localIndex, onTick, offTick) -> statusCode`. -/
def setPWM (c : Adafruit_PWMServoDriver) (num on_ off : Nat) :
    Nat × Adafruit_PWMServoDriver := (c.setPWMReply num on_ off, c)

/-- Modelled from the spec: `setChannelDutyTicks(localIndex, ticks, invert) -> void`. -/
def setPin (c : Adafruit_PWMServoDriver) (_num _val : Nat) (_invert : Bool) :
    Unit × Adafruit_PWMServoDriver := ((), c)

/-- Modelled from the spec: `readPrescaleRegister() -> uint8`. -/
def readPrescale (c : Adafruit_PWMServoDriver) : Nat × Adafruit_PWMServoDriver :=
  (c.prescaleReply, c)

/-- Modelled from the spec: `setChannelPulseMicroseconds(localIndex, microseconds) -> void`. -/
def writeMicroseconds (c : Adafruit_PWMServoDriver) (_num _microseconds : Nat) :
    Unit × Adafruit_PWMServoDriver := ((), c)

/-- Modelled from the spec: `getOscillatorFrequency() -> uint32`, the tracked value. -/
def getOscillatorFrequency (c : Adafruit_PWMServoDriver) : Nat × Adafruit_PWMServoDriver :=
  (c.oscillator_freq, c)

/-- Modelled from the spec: `setOscillatorFrequency(hz: uint32) -> void`, which
replaces the tracked value. -/
def setOscillatorFrequency (c : Adafruit_PWMServoDriver) (freq : Nat) :
    Unit × Adafruit_PWMServoDriver := ((), { c with oscillator_freq := freq })

end Adafruit_PWMServoDriver

/-- The class `Adafruit_PWMServoDriverGroup`: its three private members, and
the ghost record `calls` of the calls delegated so far, as pairs of chip index
and call. -/
structure Adafruit_PWMServoDriverGroup where
  _nDrivers : Nat
  _nServosEach : Nat
  _drivers : List Adafruit_PWMServoDriver
  calls : List (Nat × Call)

/-- A counting loop `for (i = 0; i < n; i++) body`, run as `forLoop body n 0 s`:
the first number is the count of iterations still to do, the second is `i`. -/
def forLoop {σ : Type} (body : Nat → σ → Except Fault σ) : Nat → Nat → σ → Except Fault σ
  | 0, _, s => .ok s
  | k + 1, i, s =>
    match body i s with
    | .error e => .error e
    | .ok s1 => forLoop body k (i + 1) s1

namespace Adafruit_PWMServoDriverGroup

/-- Both constructors: store the two counts and build one driver per address,
`_drivers[i] = new Adafruit_PWMServoDriver(addr[i], bus)` for `i` from 0 to
`nDrivers - 1`. `mk` is the chip constructor already bound to the bus (`Wire`
in the first form, `i2c` in the second); `addr` is the address array read by
index. -/
def construct (mk : Nat → Adafruit_PWMServoDriver) (nDrivers nServosEach : Nat)
    (addr : Nat → Nat) : Adafruit_PWMServoDriverGroup :=
  { _nDrivers := nDrivers
    _nServosEach := nServosEach
    _drivers := (List.range nDrivers).map (fun i => mk (addr i))
    calls := [] }

/-- The accessor `getNumDrivers`. -/
def getNumDrivers (g : Adafruit_PWMServoDriverGroup) : Nat := g._nDrivers

/-- The accessor `getNumServosEach`. -/
def getNumServosEach (g : Adafruit_PWMServoDriverGroup) : Nat := g._nServosEach

/-- The accessor `getNumServos`: `return _nDrivers * _nServosEach;` with return
type `uint8_t`, so the `int` product is narrowed to 8 bits. -/
def getNumServos (g : Adafruit_PWMServoDriverGroup) : Nat :=
  (g._nDrivers * g._nServosEach) % 256

/-- The member call `_drivers[i]->m(...)`: read the handle at `i`, run the chip
method `m` on it, keep the chip's new state and note the call. -/
def invoke {α : Type} (g : Adafruit_PWMServoDriverGroup) (i : Nat) (call : Call)
    (m : Adafruit_PWMServoDriver → α × Adafruit_PWMServoDriver) :
    Except Fault (α × Adafruit_PWMServoDriverGroup) :=
  match g._drivers[i]? with
  | none => .error .outOfBounds
  | some c =>
    .ok ((m c).1, { g with _drivers := g._drivers.set i (m c).2, calls := g.calls ++ [(i, call)] })

/-- A member call whose result is not used. -/
def invokeVoid (g : Adafruit_PWMServoDriverGroup) (i : Nat) (call : Call)
    (m : Adafruit_PWMServoDriver → Unit × Adafruit_PWMServoDriver) :
    Except Fault Adafruit_PWMServoDriverGroup :=
  match g.invoke i call m with
  | .error e => .error e
  | .ok r => .ok r.2

/-- The first half of `getDriver`: `driverId` starts at 0 and, when
`num > _nServosEach - 1` (compared as `int`), becomes `num / _nServosEach`
narrowed to `uint8_t`. -/
def getDriverId (g : Adafruit_PWMServoDriverGroup) (num : Nat) : Except Fault Nat :=
  if (num : Int) > (g._nServosEach : Int) - 1 then
    if g._nServosEach = 0 then .error .divisionByZero
    else .ok ((num / g._nServosEach) % 256)
  else .ok 0

/-- The second half of `getDriver`: `localId = num - (driverId * _nServosEach)`,
computed as `int` and narrowed to `uint8_t`. -/
def getLocalId (g : Adafruit_PWMServoDriverGroup) (num driverId : Nat) : Nat :=
  (((num : Int) - (driverId : Int) * (g._nServosEach : Int)) % 256).toNat

/-- The method `getDriver(num, localId)` with `uint8_t num`. The returned pointer
`_drivers[driverId]` is given as the index `driverId` it was read at, next to
the value written to `localId`. -/
def getDriver (g : Adafruit_PWMServoDriverGroup) (num : Nat) : Except Fault (Nat × Nat) :=
  match g.getDriverId (num % 256) with
  | .error e => .error e
  | .ok driverId =>
    match g._drivers[driverId]? with
    | none => .error .outOfBounds
    | some _ => .ok (driverId, g.getLocalId (num % 256) driverId)

/-- The method `begin(prescale)`: `status &= _drivers[i]->begin(prescale)` for
every `i`, starting from `status = true`. -/
def begin (g : Adafruit_PWMServoDriverGroup) (prescale : Nat) :
    Except Fault (Bool × Adafruit_PWMServoDriverGroup) :=
  forLoop (fun i (st : Bool × Adafruit_PWMServoDriverGroup) =>
    match st.2.invoke i (.begin prescale) (fun c => c.begin prescale) with
    | .error e => .error e
    | .ok r => .ok (st.1 && r.1, r.2)) g._nDrivers 0 (true, g)

/-- The method `reset()`. -/
def reset (g : Adafruit_PWMServoDriverGroup) : Except Fault Adafruit_PWMServoDriverGroup :=
  forLoop (fun i (s : Adafruit_PWMServoDriverGroup) => s.invokeVoid i .reset (fun c => c.reset)) g._nDrivers 0 g

/-- The method `sleep()`. -/
def sleep (g : Adafruit_PWMServoDriverGroup) : Except Fault Adafruit_PWMServoDriverGroup :=
  forLoop (fun i (s : Adafruit_PWMServoDriverGroup) => s.invokeVoid i .sleep (fun c => c.sleep)) g._nDrivers 0 g

/-- The method `wakeup()`. -/
def wakeup (g : Adafruit_PWMServoDriverGroup) : Except Fault Adafruit_PWMServoDriverGroup :=
  forLoop (fun i (s : Adafruit_PWMServoDriverGroup) => s.invokeVoid i .wakeup (fun c => c.wakeup)) g._nDrivers 0 g

/-- The method `setExtClk(prescale)`. -/
def setExtClk (g : Adafruit_PWMServoDriverGroup) (prescale : Nat) :
    Except Fault Adafruit_PWMServoDriverGroup :=
  forLoop (fun i (s : Adafruit_PWMServoDriverGroup) => s.invokeVoid i (.setExtClk prescale) (fun c => c.setExtClk prescale))
    g._nDrivers 0 g

/-- The method `setPWMFreq(freq)`. -/
def setPWMFreq (g : Adafruit_PWMServoDriverGroup) (freq : Nat) :
    Except Fault Adafruit_PWMServoDriverGroup :=
  forLoop (fun i (s : Adafruit_PWMServoDriverGroup) => s.invokeVoid i (.setPWMFreq freq) (fun c => c.setPWMFreq freq))
    g._nDrivers 0 g

/-- The method `setOutputMode(totempole)`. -/
def setOutputMode (g : Adafruit_PWMServoDriverGroup) (totempole : Bool) :
    Except Fault Adafruit_PWMServoDriverGroup :=
  forLoop (fun i (s : Adafruit_PWMServoDriverGroup) => s.invokeVoid i (.setOutputMode totempole)
    (fun c => c.setOutputMode totempole)) g._nDrivers 0 g

/-- The method `getPWM(num, off)` with `uint8_t num`. -/
def getPWM (g : Adafruit_PWMServoDriverGroup) (num : Nat) (off : Bool) :
    Except Fault (Nat × Adafruit_PWMServoDriverGroup) :=
  match g.getDriver (num % 256) with
  | .error e => .error e
  | .ok (driver, localId) => g.invoke driver (.getPWM localId off) (fun c => c.getPWM localId off)

/-- The method `setPWM(num, on, off)` with `uint8_t num`. -/
def setPWM (g : Adafruit_PWMServoDriverGroup) (num on_ off : Nat) :
    Except Fault (Nat × Adafruit_PWMServoDriverGroup) :=
  match g.getDriver (num % 256) with
  | .error e => .error e
  | .ok (driver, localId) =>
    g.invoke driver (.setPWM localId on_ off) (fun c => c.setPWM localId on_ off)

/-- The method `setPin(num, val, invert)` with `uint8_t num`. -/
def setPin (g : Adafruit_PWMServoDriverGroup) (num val : Nat) (invert : Bool) :
    Except Fault Adafruit_PWMServoDriverGroup :=
  match g.getDriver (num % 256) with
  | .error e => .error e
  | .ok (driver, localId) =>
    g.invokeVoid driver (.setPin localId val invert) (fun c => c.setPin localId val invert)

/-- The method `readPrescale()`: `return _drivers[0]->readPrescale();`. -/
def readPrescale (g : Adafruit_PWMServoDriverGroup) :
    Except Fault (Nat × Adafruit_PWMServoDriverGroup) :=
  g.invoke 0 .readPrescale (fun c => c.readPrescale)

/-- The method `writeMicroseconds(num, microseconds)` with `uint8_t num`. -/
def writeMicroseconds (g : Adafruit_PWMServoDriverGroup) (num microseconds : Nat) :
    Except Fault Adafruit_PWMServoDriverGroup :=
  match g.getDriver (num % 256) with
  | .error e => .error e
  | .ok (driver, localId) =>
    g.invokeVoid driver (.writeMicroseconds localId microseconds)
      (fun c => c.writeMicroseconds localId microseconds)

/-- The method `getOscillatorFrequency(id)`. -/
def getOscillatorFrequency (g : Adafruit_PWMServoDriverGroup) (id : Nat) :
    Except Fault (Nat × Adafruit_PWMServoDriverGroup) :=
  g.invoke id .getOscillatorFrequency (fun c => c.getOscillatorFrequency)

/-- The broadcast method `setOscillatorFrequency(freq)`. -/
def setOscillatorFrequency (g : Adafruit_PWMServoDriverGroup) (freq : Nat) :
    Except Fault Adafruit_PWMServoDriverGroup :=
  forLoop (fun i (s : Adafruit_PWMServoDriverGroup) => s.invokeVoid i (.setOscillatorFrequency freq)
    (fun c => c.setOscillatorFrequency freq)) g._nDrivers 0 g

/-- The per-chip method `setOscillatorFrequency(id, freq)`. -/
def setOscillatorFrequencyOf (g : Adafruit_PWMServoDriverGroup) (id freq : Nat) :
    Except Fault Adafruit_PWMServoDriverGroup :=
  g.invokeVoid id (.setOscillatorFrequency freq) (fun c => c.setOscillatorFrequency freq)

/-- The state the constructors leave: the two counts fit in `uint8_t` and
`_drivers` holds exactly `_nDrivers` handles. -/
def WellFormed (g : Adafruit_PWMServoDriverGroup) : Prop :=
  g._nDrivers < 256 ∧ g._nServosEach < 256 ∧ g._drivers.length = g._nDrivers

end Adafruit_PWMServoDriverGroup

/-- A chip for the examples: every reply is fixed. -/
def sampleDriver (addr : Nat) (ok : Bool) (status : Nat) : Adafruit_PWMServoDriver :=
  { i2caddr := addr
    oscillator_freq := 25000000
    beginReply := fun _ => ok
    getPWMReply := fun _ _ => 0
    setPWMReply := fun _ _ _ => status
    prescaleReply := addr }

/-- The scenario of the spec: 3 chips of 16 channels at addresses 0x40..0x42,
the middle one failing `begin`. -/
def sampleGroup : Adafruit_PWMServoDriverGroup :=
  Adafruit_PWMServoDriverGroup.construct
    (fun a => sampleDriver a (a != 0x41) (a - 0x40)) 3 16 (fun i => 0x40 + i)

/-- A group of 17 chips of 16 channels: 272 channels, more than `uint8_t` counts. -/
def wideGroup : Adafruit_PWMServoDriverGroup :=
  Adafruit_PWMServoDriverGroup.construct (fun a => sampleDriver a true 0) 17 16 (fun i => 0x40 + i)

/-- A group of 16 chips of 16 channels: 256 channels. -/
def fullGroup : Adafruit_PWMServoDriverGroup :=
  Adafruit_PWMServoDriverGroup.construct (fun a => sampleDriver a true 0) 16 16 (fun i => 0x40 + i)

namespace Adafruit_PWMServoDriverGroup

/-! Resolution arithmetic -/

theorem construct_wellFormed (mk : Nat → Adafruit_PWMServoDriver) (nDrivers nServosEach : Nat)
    (addr : Nat → Nat) (hd : nDrivers < 256) (hs : nServosEach < 256) :
    (construct mk nDrivers nServosEach addr).WellFormed := by
  refine ⟨hd, hs, ?_⟩
  simp [construct]

theorem getDriverId_eq (g : Adafruit_PWMServoDriverGroup) (num : Nat)
    (hpos : 1 ≤ g._nServosEach) (hnum : num < 256) :
    g.getDriverId num = .ok (num / g._nServosEach) := by
  unfold getDriverId
  have hle : num / g._nServosEach ≤ num := Nat.div_le_self _ _
  split_ifs with h1 h2
  · omega
  · rw [Nat.mod_eq_of_lt (by omega)]
  · have hlt : num < g._nServosEach := by omega
    rw [Nat.div_eq_of_lt hlt]

theorem getLocalId_eq (g : Adafruit_PWMServoDriverGroup) (num : Nat) (hnum : num < 256) :
    g.getLocalId num (num / g._nServosEach) = num % g._nServosEach := by
  unfold getLocalId
  have hdm : g._nServosEach * (num / g._nServosEach) + num % g._nServosEach = num :=
    Nat.div_add_mod num g._nServosEach
  have hle : num % g._nServosEach ≤ num := Nat.mod_le _ _
  generalize num / g._nServosEach = q at hdm
  generalize num % g._nServosEach = r at hdm hle
  have hc : (g._nServosEach : Int) * (q : Int) + (r : Int) = (num : Int) := by exact_mod_cast hdm
  have h1 : (num : Int) - (q : Int) * (g._nServosEach : Int) = (r : Int) := by linarith
  rw [h1, Int.emod_eq_of_lt (by omega) (by omega)]
  simp

theorem getDriver_eq (g : Adafruit_PWMServoDriverGroup) (num : Nat)
    (hpos : 1 ≤ g._nServosEach) (hnum : num < 256) :
    g.getDriver num =
      if num / g._nServosEach < g._drivers.length then
        .ok (num / g._nServosEach, num % g._nServosEach)
      else .error .outOfBounds := by
  unfold getDriver
  rw [Nat.mod_eq_of_lt hnum, getDriverId_eq g num hpos hnum]
  simp only [getLocalId_eq g num hnum]
  split_ifs with h
  · simp [List.getElem?_eq_getElem h]
  · simp [List.getElem?_eq_none (Nat.le_of_not_lt h)]

theorem div_lt_iff_valid (n d num : Nat) (hpos : 1 ≤ n) : num / n < d ↔ num < d * n :=
  Nat.div_lt_iff_lt_mul hpos

theorem getDriver_of_valid (g : Adafruit_PWMServoDriverGroup) (num : Nat)
    (hwf : g.WellFormed) (hpos : 1 ≤ g._nServosEach) (hnum : num < 256)
    (hvalid : num < g._nDrivers * g._nServosEach) :
    g.getDriver num = .ok (num / g._nServosEach, num % g._nServosEach) ∧
      num / g._nServosEach < g._nDrivers := by
  have hlt : num / g._nServosEach < g._nDrivers :=
    (div_lt_iff_valid g._nServosEach g._nDrivers num hpos).2 hvalid
  refine ⟨?_, hlt⟩
  rw [getDriver_eq g num hpos hnum, hwf.2.2, if_pos hlt]

theorem pos_of_valid (g : Adafruit_PWMServoDriverGroup) (num : Nat)
    (hvalid : num < g._nDrivers * g._nServosEach) : 1 ≤ g._nServosEach := by
  rcases Nat.eq_zero_or_pos g._nServosEach with h | h
  · rw [h] at hvalid
    simp at hvalid
  · exact h

/-! Delegated calls -/

theorem set_same (l : List Adafruit_PWMServoDriver) (i : Nat) (c : Adafruit_PWMServoDriver)
    (h : l[i]? = some c) : l.set i c = l := by
  apply List.ext_getElem?
  intro j
  rw [List.getElem?_set]
  split_ifs with h1 h2
  · rw [← h1, h]
  · rw [← h1, List.getElem?_eq_none (Nat.le_of_not_lt h2)]
  · rfl

theorem invoke_of_some {α : Type} (g : Adafruit_PWMServoDriverGroup) (i : Nat) (call : Call)
    (m : Adafruit_PWMServoDriver → α × Adafruit_PWMServoDriver) (c : Adafruit_PWMServoDriver)
    (h : g._drivers[i]? = some c) :
    g.invoke i call m =
      .ok ((m c).1,
        { g with _drivers := g._drivers.set i (m c).2, calls := g.calls ++ [(i, call)] }) := by
  simp [invoke, h]

theorem invoke_of_none {α : Type} (g : Adafruit_PWMServoDriverGroup) (i : Nat) (call : Call)
    (m : Adafruit_PWMServoDriver → α × Adafruit_PWMServoDriver)
    (h : g._drivers[i]? = none) : g.invoke i call m = .error .outOfBounds := by
  simp [invoke, h]

theorem invokeVoid_of_some (g : Adafruit_PWMServoDriverGroup) (i : Nat) (call : Call)
    (m : Adafruit_PWMServoDriver → Unit × Adafruit_PWMServoDriver) (c : Adafruit_PWMServoDriver)
    (h : g._drivers[i]? = some c) :
    g.invokeVoid i call m =
      .ok { g with _drivers := g._drivers.set i (m c).2, calls := g.calls ++ [(i, call)] } := by
  simp [invokeVoid, invoke_of_some g i call m c h]

theorem forLoop_invokeVoid (call : Call)
    (m : Adafruit_PWMServoDriver → Unit × Adafruit_PWMServoDriver) :
    ∀ (k i : Nat) (g : Adafruit_PWMServoDriverGroup), i + k ≤ g._drivers.length →
      ∃ g1, forLoop (fun j (s : Adafruit_PWMServoDriverGroup) => s.invokeVoid j call m) k i g
          = .ok g1 ∧
        g1._nDrivers = g._nDrivers ∧ g1._nServosEach = g._nServosEach ∧
        g1.calls = g.calls ++ (List.range' i k).map (fun j => (j, call)) ∧
        g1._drivers.length = g._drivers.length ∧
        ∀ j, g1._drivers[j]? =
          if i ≤ j ∧ j < i + k then (g._drivers[j]?).map (fun c => (m c).2)
          else g._drivers[j]? := by
  intro k
  induction k with
  | zero =>
    intro i g _
    refine ⟨g, rfl, rfl, rfl, by simp, rfl, fun j => ?_⟩
    rw [if_neg (by omega)]
  | succ k ih =>
    intro i g h
    have hi : i < g._drivers.length := by omega
    have hsome : g._drivers[i]? = some g._drivers[i] := List.getElem?_eq_getElem hi
    obtain ⟨g1, hrun, hn, hs, hc, hl, hd⟩ := ih (i + 1)
      { g with _drivers := g._drivers.set i (m g._drivers[i]).2,
               calls := g.calls ++ [(i, call)] }
      (by simp only [List.length_set]; omega)
    refine ⟨g1, ?_, hn, hs, ?_, ?_, fun j => ?_⟩
    · simp only [forLoop, invokeVoid_of_some g i call m _ hsome]
      exact hrun
    · rw [hc, List.range'_succ]
      simp
    · rw [hl, List.length_set]
    · rw [hd j]
      simp only [List.getElem?_set]
      by_cases hij : i = j
      · subst hij
        rw [if_neg (by omega), if_pos rfl, if_pos hi, if_pos (by omega), hsome]
        rfl
      · rw [if_neg hij]
        by_cases hr : i + 1 ≤ j ∧ j < i + 1 + k
        · rw [if_pos hr, if_pos (by omega)]
        · rw [if_neg hr, if_neg (by omega)]

theorem broadcast_calls (call : Call)
    (m : Adafruit_PWMServoDriver → Unit × Adafruit_PWMServoDriver)
    (g : Adafruit_PWMServoDriverGroup) (hwf : g.WellFormed) :
    ∃ g1, forLoop (fun j (s : Adafruit_PWMServoDriverGroup) => s.invokeVoid j call m)
          g._nDrivers 0 g = .ok g1 ∧
      g1.calls = g.calls ++ (List.range g._nDrivers).map (fun i => (i, call)) ∧
      ∀ j, j < g._nDrivers → g1._drivers[j]? = (g._drivers[j]?).map (fun c => (m c).2) := by
  obtain ⟨g1, hrun, _, _, hc, _, hd⟩ :=
    forLoop_invokeVoid call m g._nDrivers 0 g (by rw [hwf.2.2]; omega)
  refine ⟨g1, hrun, ?_, fun j hj => ?_⟩
  · rw [hc, List.range_eq_range']
  · rw [hd j, if_pos (by omega)]

theorem forLoop_begin (prescale : Nat) :
    ∀ (k i : Nat) (b : Bool) (g : Adafruit_PWMServoDriverGroup), i + k ≤ g._drivers.length →
      forLoop (fun i (st : Bool × Adafruit_PWMServoDriverGroup) =>
          match st.2.invoke i (.begin prescale) (fun c => c.begin prescale) with
          | .error e => .error e
          | .ok r => .ok (st.1 && r.1, r.2)) k i (b, g)
        = .ok (b && ((g._drivers.drop i).take k).all (fun c => (c.begin prescale).1),
            { g with calls := g.calls ++ (List.range' i k).map (fun j => (j, Call.begin prescale)) })
    := by
  intro k
  induction k with
  | zero =>
    intro i b g _
    simp [forLoop]
  | succ k ih =>
    intro i b g h
    have hi : i < g._drivers.length := by omega
    have hsome : g._drivers[i]? = some g._drivers[i] := List.getElem?_eq_getElem hi
    have hset : g._drivers.set i (g._drivers[i].begin prescale).2 = g._drivers :=
      set_same _ _ _ hsome
    simp only [forLoop, invoke_of_some g i _ _ _ hsome, hset]
    rw [ih (i + 1) _ _ (by show i + 1 + k ≤ g._drivers.length; omega)]
    rw [List.drop_eq_getElem_cons hi, List.take_succ_cons, List.all_cons, List.range'_succ,
      List.map_cons, Bool.and_assoc, List.append_assoc]
    rfl

theorem sampleGroup_wellFormed : sampleGroup.WellFormed :=
  ⟨by decide, by decide, rfl⟩

theorem wideGroup_wellFormed : wideGroup.WellFormed :=
  ⟨by decide, by decide, rfl⟩

/-! Claims about resolution -/

/-- C1 as stated fails: with 17 chips of 16 channels the global index 256 is
valid (256 < 272) and belongs to chip 16, local 0, but the `uint8_t` parameter
of `getDriver` receives it as 0 and chip 0, local 0 is selected. -/
theorem getDriver_resolves_counterexample :
    wideGroup.WellFormed ∧ 1 ≤ wideGroup._nServosEach ∧
      256 < wideGroup._nDrivers * wideGroup._nServosEach ∧
      256 / wideGroup._nServosEach = 16 ∧ 256 % wideGroup._nServosEach = 0 ∧
      wideGroup.getDriver 256 = .ok (0, 0) ∧
      wideGroup.getDriver 256 ≠
        .ok (256 / wideGroup._nServosEach, 256 % wideGroup._nServosEach) := by
  have h : wideGroup.getDriver 256 = .ok (0, 0) := rfl
  refine ⟨wideGroup_wellFormed, by decide, by decide, rfl, rfl, h, ?_⟩
  rw [h]
  intro hne
  simp only [Except.ok.injEq, Prod.mk.injEq] at hne
  exact absurd hne.1 (by decide)

/-- C1, amended: in a group with at least one channel per chip, `getDriver`
sends every valid global index `num` that its `uint8_t` parameter holds
(`num < 256`) to the chip at index `num / _nServosEach`, writes
`num % _nServosEach` to `localId`, and that chip index is below the number of
chips. -/
theorem getDriver_resolves (g : Adafruit_PWMServoDriverGroup) (num : Nat)
    (hwf : g.WellFormed) (hpos : 1 ≤ g._nServosEach) (hnum : num < 256)
    (hvalid : num < g._nDrivers * g._nServosEach) :
    g.getDriver num = .ok (num / g._nServosEach, num % g._nServosEach) ∧
      num / g._nServosEach < g._nDrivers := by
  exact getDriver_of_valid g num hwf hpos hnum hvalid

/-- The scenario of C1: with 3 chips of 16 channels, index 16 resolves to chip 1
local 0, index 47 to chip 2 local 15, and index 0 to chip 0 local 0. -/
theorem getDriver_resolves_witness :
    sampleGroup.getDriver 16 = .ok (1, 0) ∧ sampleGroup.getDriver 47 = .ok (2, 15) ∧
      sampleGroup.getDriver 0 = .ok (0, 0) :=
  ⟨(getDriver_resolves sampleGroup 16 sampleGroup_wellFormed (by decide) (by decide)
      (by decide)).1,
   (getDriver_resolves sampleGroup 47 sampleGroup_wellFormed (by decide) (by decide)
      (by decide)).1,
   (getDriver_resolves sampleGroup 0 sampleGroup_wellFormed (by decide) (by decide)
      (by decide)).1⟩

/-- C2 as stated fails: with 17 chips of 16 channels the pair (chip 16, local 0)
lies in the stated range, yet no value of the `uint8_t` parameter `num`
resolves to it. -/
theorem getDriver_onto_counterexample :
    wideGroup.WellFormed ∧ 1 ≤ wideGroup._nServosEach ∧ 16 < wideGroup._nDrivers ∧
      0 < wideGroup._nServosEach ∧
      ¬ ∃ num, num < 256 ∧ wideGroup.getDriver num = .ok (16, 0) := by
  refine ⟨wideGroup_wellFormed, by decide, by decide, by decide, ?_⟩
  rintro ⟨num, hnum, h⟩
  rw [getDriver_eq wideGroup num (by decide) hnum] at h
  have hs : wideGroup._nServosEach = 16 := rfl
  rw [hs] at h
  split_ifs at h with hlt
  simp only [Except.ok.injEq, Prod.mk.injEq] at h
  omega

/-- C2, amended: with at least one channel per chip, `getDriver` is one-to-one
on the valid indices its `uint8_t` parameter holds, sends each of them to a
pair (chip below the chip count, local below the per-chip count) whose flat
position `chip * _nServosEach + local` is the index, and reaches every such pair
whose flat position is below 256; all pairs when the group has at most 256
channels. -/
theorem getDriver_bijective (g : Adafruit_PWMServoDriverGroup)
    (hwf : g.WellFormed) (hpos : 1 ≤ g._nServosEach) :
    (∀ a b, a < 256 → b < 256 → a < g._nDrivers * g._nServosEach →
        b < g._nDrivers * g._nServosEach → g.getDriver a = g.getDriver b → a = b) ∧
    (∀ a, a < 256 → a < g._nDrivers * g._nServosEach →
        ∃ d l, g.getDriver a = .ok (d, l) ∧ d < g._nDrivers ∧ l < g._nServosEach ∧
          d * g._nServosEach + l = a) ∧
    (∀ d l, d < g._nDrivers → l < g._nServosEach → d * g._nServosEach + l < 256 →
        ∃ num, num < 256 ∧ num < g._nDrivers * g._nServosEach ∧
          g.getDriver num = .ok (d, l)) ∧
    (g._nDrivers * g._nServosEach ≤ 256 →
      ∀ d l, d < g._nDrivers → l < g._nServosEach →
        ∃ num, num < 256 ∧ num < g._nDrivers * g._nServosEach ∧
          g.getDriver num = .ok (d, l)) := by
  have hflat : ∀ d l, d < g._nDrivers → l < g._nServosEach →
      d * g._nServosEach + l < g._nDrivers * g._nServosEach := by
    intro d l hd hl
    calc d * g._nServosEach + l < d * g._nServosEach + g._nServosEach := by omega
      _ = (d + 1) * g._nServosEach := by ring
      _ ≤ g._nDrivers * g._nServosEach := Nat.mul_le_mul_right _ hd
  have honto : ∀ d l, d < g._nDrivers → l < g._nServosEach → d * g._nServosEach + l < 256 →
      ∃ num, num < 256 ∧ num < g._nDrivers * g._nServosEach ∧
        g.getDriver num = .ok (d, l) := by
    intro d l hd hl h256
    refine ⟨d * g._nServosEach + l, h256, hflat d l hd hl, ?_⟩
    have hres := (getDriver_of_valid g _ hwf hpos h256 (hflat d l hd hl)).1
    rw [hres]
    have hdiv : (d * g._nServosEach + l) / g._nServosEach = d := by
      rw [Nat.add_comm, Nat.add_mul_div_right _ _ (by omega), Nat.div_eq_of_lt hl, Nat.zero_add]
    have hmod : (d * g._nServosEach + l) % g._nServosEach = l := by
      rw [Nat.add_comm, Nat.add_mul_mod_self_right, Nat.mod_eq_of_lt hl]
    rw [hdiv, hmod]
  refine ⟨?_, ?_, honto, ?_⟩
  · intro a b ha hb hva hvb h
    rw [(getDriver_of_valid g a hwf hpos ha hva).1,
      (getDriver_of_valid g b hwf hpos hb hvb).1] at h
    simp only [Except.ok.injEq, Prod.mk.injEq] at h
    rw [← Nat.div_add_mod a g._nServosEach, ← Nat.div_add_mod b g._nServosEach, h.1, h.2]
  · intro a ha hva
    obtain ⟨hres, hlt⟩ := getDriver_of_valid g a hwf hpos ha hva
    refine ⟨_, _, hres, hlt, Nat.mod_lt _ (by omega), ?_⟩
    rw [Nat.mul_comm]
    exact Nat.div_add_mod a g._nServosEach
  · intro hsmall d l hd hl
    exact honto d l hd hl (lt_of_lt_of_le (hflat d l hd hl) hsmall)

/-- Instance of the amended C2 in the 3-chip scenario: index 47 and index 16
resolve to different pairs, and the pair (chip 2, local 15) is reached. -/
theorem getDriver_bijective_witness :
    (sampleGroup.getDriver 47 = sampleGroup.getDriver 16 → 47 = 16) ∧
      ∃ num, num < 256 ∧ num < sampleGroup._nDrivers * sampleGroup._nServosEach ∧
        sampleGroup.getDriver num = .ok (2, 15) :=
  ⟨(getDriver_bijective sampleGroup sampleGroup_wellFormed (by decide)).1 47 16
      (by decide) (by decide) (by decide) (by decide),
   (getDriver_bijective sampleGroup sampleGroup_wellFormed (by decide)).2.2.1 2 15
      (by decide) (by decide) (by decide)⟩

/-- C3 fails on the code: for 16 chips of 16 channels the group holds 256
channels, `getNumDrivers() * getNumServosEach()` is 256, and `getNumServos()`
returns 0. -/
theorem getNumServos_wraps :
    fullGroup.getNumDrivers = 16 ∧ fullGroup.getNumServosEach = 16 ∧
      fullGroup.getNumDrivers * fullGroup.getNumServosEach = 256 ∧
      fullGroup._drivers.length = 16 ∧ fullGroup.getNumServos = 0 := by
  refine ⟨rfl, rfl, rfl, rfl, rfl⟩

/-- C10: with at least one channel per chip and any `uint8_t` index `num`, the
division in `getDriver` has a non-zero divisor and yields `num / _nServosEach`;
that chip index is below the chip count exactly when `num` is a valid index;
the lookup in `getDriver` succeeds exactly when `num` is valid; and an index at
or beyond `_nDrivers * _nServosEach` reads past the end of `_drivers`. -/
theorem getDriver_succeeds_iff_valid (g : Adafruit_PWMServoDriverGroup) (num : Nat)
    (hwf : g.WellFormed) (hpos : 1 ≤ g._nServosEach) (hnum : num < 256) :
    g.getDriverId num = .ok (num / g._nServosEach) ∧
    g.getDriver num ≠ .error .divisionByZero ∧
    (num / g._nServosEach < g._nDrivers ↔ num < g._nDrivers * g._nServosEach) ∧
    ((∃ r, g.getDriver num = .ok r) ↔ num < g._nDrivers * g._nServosEach) ∧
    (g._nDrivers * g._nServosEach ≤ num → g.getDriver num = .error .outOfBounds) := by
  have hiff := div_lt_iff_valid g._nServosEach g._nDrivers num hpos
  have heq := getDriver_eq g num hpos hnum
  rw [hwf.2.2] at heq
  refine ⟨getDriverId_eq g num hpos hnum, ?_, hiff, ?_, ?_⟩
  · rw [heq]
    split_ifs <;> simp
  · rw [heq]
    constructor
    · rintro ⟨r, hr⟩
      by_contra hnv
      rw [if_neg (fun h => hnv (hiff.1 h))] at hr
      exact absurd hr (by simp)
    · intro hv
      exact ⟨_, if_pos (hiff.2 hv)⟩
  · intro hge
    rw [heq, if_neg (fun h => absurd (hiff.1 h) (by omega))]

/-- Instance of C10 in the 3-chip scenario at index 48, the first invalid one:
it resolves to chip index 3, which is not below the chip count, and the lookup
reads past the end of `_drivers`. -/
theorem getDriver_succeeds_iff_valid_witness :
    sampleGroup.getDriverId 48 = .ok 3 ∧ ¬ (3 < sampleGroup._nDrivers) ∧
      sampleGroup.getDriver 48 = .error .outOfBounds :=
  ⟨(getDriver_succeeds_iff_valid sampleGroup 48 sampleGroup_wellFormed (by decide)
      (by decide)).1,
   by decide,
   (getDriver_succeeds_iff_valid sampleGroup 48 sampleGroup_wellFormed (by decide)
      (by decide)).2.2.2.2 (by decide)⟩

/-! Claims about broadcast and routed methods -/

/-- C4: `begin(prescale)` succeeds on a well-formed group, returns the logical
AND of the results of the chips' own `begin(prescale)`, which is true exactly
when every one of them is true, and delegates exactly the calls
`begin(prescale)` to chip 0, 1, ..., `_nDrivers - 1`, once each, whatever the
earlier chips answered. -/
theorem begin_and_of_all (g : Adafruit_PWMServoDriverGroup) (prescale : Nat)
    (hwf : g.WellFormed) :
    ∃ g1, g.begin prescale
          = .ok ((g._drivers.map (fun c => (c.begin prescale).1)).all id, g1) ∧
      g1.calls = g.calls ++ (List.range g._nDrivers).map (fun i => (i, Call.begin prescale)) ∧
      ((g._drivers.map (fun c => (c.begin prescale).1)).all id = true ↔
        ∀ r ∈ g._drivers.map (fun c => (c.begin prescale).1), r = true) := by
  have hrun := forLoop_begin prescale g._nDrivers 0 true g (by rw [hwf.2.2]; omega)
  rw [List.drop_zero, ← hwf.2.2, List.take_length, ← List.range_eq_range', Bool.true_and,
    hwf.2.2] at hrun
  have hall : (g._drivers.map (fun c => (c.begin prescale).1)).all id
      = g._drivers.all (fun c => (c.begin prescale).1) := by
    induction g._drivers with
    | nil => rfl
    | cons c cs ih => simp only [List.map_cons, List.all_cons, ih, id]
  rw [hall]
  refine ⟨_, hrun, rfl, ?_⟩
  simp

/-- The scenario of C4: the chips answer true, false, true; the group returns
false and all three chips were called. -/
theorem begin_and_of_all_witness :
    sampleGroup._drivers.map (fun c => (c.begin 0).1) = [true, false, true] ∧
      ∃ g1, sampleGroup.begin 0 = .ok (false, g1) ∧
        g1.calls = [(0, Call.begin 0), (1, Call.begin 0), (2, Call.begin 0)] :=
  ⟨rfl, by
    obtain ⟨g1, h1, h2, _⟩ := begin_and_of_all sampleGroup 0 sampleGroup_wellFormed
    exact ⟨g1, h1, h2⟩⟩

/-- C5 as stated fails: with 17 chips of 16 channels the global index 260 is
valid and belongs to chip 16, local 4, but `setPWM(260, 100, 200)` receives it
as 4 and its one call `setPWM(4, 100, 200)` goes to chip 0. -/
theorem setPWM_routes_counterexample :
    wideGroup.WellFormed ∧ 260 < wideGroup._nDrivers * wideGroup._nServosEach ∧
      260 / wideGroup._nServosEach = 16 ∧ 260 % wideGroup._nServosEach = 4 ∧
      (wideGroup.setPWM 260 100 200).map (fun r => r.2.calls)
        = .ok [(0, Call.setPWM 4 100 200)] ∧
      (wideGroup.setPWM 260 100 200).map (fun r => r.2.calls)
        ≠ .ok [(260 / wideGroup._nServosEach,
            Call.setPWM (260 % wideGroup._nServosEach) 100 200)] := by
  have h : (wideGroup.setPWM 260 100 200).map (fun r => r.2.calls)
      = .ok [(0, Call.setPWM 4 100 200)] := rfl
  refine ⟨wideGroup_wellFormed, by decide, rfl, rfl, h, ?_⟩
  rw [h]
  intro hne
  simp only [Except.ok.injEq, List.cons.injEq, Prod.mk.injEq] at hne
  exact absurd hne.1.1 (by decide)

/-- C5, amended: for a valid global index `num` that the `uint8_t` parameter
holds (`num < 256`), `setPWM(num, on, off)` delegates the one call
`setPWM(num % _nServosEach, on, off)` to the chip at index
`num / _nServosEach`, adds no other call, leaves every other chip as it was, and
returns the status code of that chip unchanged. -/
theorem setPWM_routes (g : Adafruit_PWMServoDriverGroup) (num on_ off : Nat)
    (hwf : g.WellFormed) (hnum : num < 256) (hvalid : num < g._nDrivers * g._nServosEach) :
    ∃ c, g._drivers[num / g._nServosEach]? = some c ∧
      g.setPWM num on_ off =
        .ok ((c.setPWM (num % g._nServosEach) on_ off).1,
          { g with
            _drivers := g._drivers.set (num / g._nServosEach)
              (c.setPWM (num % g._nServosEach) on_ off).2
            calls := g.calls ++
              [(num / g._nServosEach, Call.setPWM (num % g._nServosEach) on_ off)] }) := by
  obtain ⟨hres, hlt⟩ := getDriver_of_valid g num hwf (pos_of_valid g num hvalid) hnum hvalid
  have hlen : num / g._nServosEach < g._drivers.length := by rw [hwf.2.2]; exact hlt
  refine ⟨g._drivers[num / g._nServosEach], List.getElem?_eq_getElem hlen, ?_⟩
  unfold setPWM
  rw [Nat.mod_eq_of_lt hnum, hres]
  exact invoke_of_some g _ _ _ _ (List.getElem?_eq_getElem hlen)

/-- Instance of C5 in the 3-chip scenario: `setPWM(47, 100, 200)` returns the
non-zero status 2 of chip 2 and the only call is `setPWM(15, 100, 200)` on chip
2; `setPWM(0, 100, 200)` returns the zero status of chip 0. -/
theorem setPWM_routes_witness :
    (∃ g1, sampleGroup.setPWM 47 100 200 = .ok (2, g1) ∧
      g1.calls = [(2, Call.setPWM 15 100 200)]) ∧
    (∃ g1, sampleGroup.setPWM 0 100 200 = .ok (0, g1) ∧
      g1.calls = [(0, Call.setPWM 0 100 200)]) :=
  ⟨by
    obtain ⟨c, hc, h⟩ := setPWM_routes sampleGroup 47 100 200 sampleGroup_wellFormed
      (by decide) (by decide)
    have hc2 : c = sampleDriver 0x42 true 2 := (Option.some.inj hc).symm
    subst hc2
    exact ⟨_, h, rfl⟩,
   by
    obtain ⟨c, hc, h⟩ := setPWM_routes sampleGroup 0 100 200 sampleGroup_wellFormed
      (by decide) (by decide)
    have hc2 : c = sampleDriver 0x40 true 0 := (Option.some.inj hc).symm
    subst hc2
    exact ⟨_, h, rfl⟩⟩

/-- C6 as stated fails: with 17 chips of 16 channels the global index 260 is
valid and belongs to chip 16, local 4, but `setPin(260, 4095, false)` receives
it as 4 and its one call `setPin(4, 4095, false)` goes to chip 0. -/
theorem setPin_forwards_counterexample :
    wideGroup.WellFormed ∧ 260 < wideGroup._nDrivers * wideGroup._nServosEach ∧
      260 / wideGroup._nServosEach = 16 ∧ 260 % wideGroup._nServosEach = 4 ∧
      (wideGroup.setPin 260 4095 false).map (fun s => s.calls)
        = .ok [(0, Call.setPin 4 4095 false)] ∧
      (wideGroup.setPin 260 4095 false).map (fun s => s.calls)
        ≠ .ok [(260 / wideGroup._nServosEach,
            Call.setPin (260 % wideGroup._nServosEach) 4095 false)] := by
  have h : (wideGroup.setPin 260 4095 false).map (fun s => s.calls)
      = .ok [(0, Call.setPin 4 4095 false)] := rfl
  refine ⟨wideGroup_wellFormed, by decide, rfl, rfl, h, ?_⟩
  rw [h]
  intro hne
  simp only [Except.ok.injEq, List.cons.injEq, Prod.mk.injEq] at hne
  exact absurd hne.1.1 (by decide)

/-- C6, amended: for a valid global index `num` that the `uint8_t` parameter
holds (`num < 256`), `setPin(num, val, invert)` delegates the one call
`setPin(num % _nServosEach, val, invert)`, with `val` and `invert` as given, to
the chip at index `num / _nServosEach`, and none of the calls it adds is a
`setPWM` call. -/
theorem setPin_forwards (g : Adafruit_PWMServoDriverGroup) (num val : Nat) (invert : Bool)
    (hwf : g.WellFormed) (hnum : num < 256) (hvalid : num < g._nDrivers * g._nServosEach) :
    ∃ g1, g.setPin num val invert = .ok g1 ∧
      g1.calls = g.calls ++
        [(num / g._nServosEach, Call.setPin (num % g._nServosEach) val invert)] ∧
      ∀ i l a b, (i, Call.setPWM l a b) ∉ g1.calls.drop g.calls.length := by
  obtain ⟨hres, hlt⟩ := getDriver_of_valid g num hwf (pos_of_valid g num hvalid) hnum hvalid
  have hlen : num / g._nServosEach < g._drivers.length := by rw [hwf.2.2]; exact hlt
  have hrun := invokeVoid_of_some g (num / g._nServosEach)
    (.setPin (num % g._nServosEach) val invert)
    (fun c => c.setPin (num % g._nServosEach) val invert) _ (List.getElem?_eq_getElem hlen)
  have hpin : g.setPin num val invert =
      g.invokeVoid (num / g._nServosEach) (.setPin (num % g._nServosEach) val invert)
        (fun c => c.setPin (num % g._nServosEach) val invert) := by
    unfold setPin
    rw [Nat.mod_eq_of_lt hnum, hres]
  refine ⟨_, hpin.trans hrun, rfl, ?_⟩
  intro i l a b
  simp

/-- The boundary values of C6 in the 3-chip scenario: `setPin(16, 0, false)`
reaches chip 1 as `setPin(0, 0, false)` and `setPin(47, 4095, false)` reaches
chip 2 as `setPin(15, 4095, false)`; neither is turned into a tick pair. -/
theorem setPin_forwards_witness :
    (∃ g1, sampleGroup.setPin 16 0 false = .ok g1 ∧
      g1.calls = [(1, Call.setPin 0 0 false)]) ∧
    (∃ g1, sampleGroup.setPin 47 4095 false = .ok g1 ∧
      g1.calls = [(2, Call.setPin 15 4095 false)]) :=
  ⟨by
    obtain ⟨g1, h1, h2, _⟩ := setPin_forwards sampleGroup 16 0 false sampleGroup_wellFormed
      (by decide) (by decide)
    exact ⟨g1, h1, h2⟩,
   by
    obtain ⟨g1, h1, h2, _⟩ := setPin_forwards sampleGroup 47 4095 false sampleGroup_wellFormed
      (by decide) (by decide)
    exact ⟨g1, h1, h2⟩⟩

/-- C7: in a group with at least one chip, `readPrescale()` returns what chip
0 answers to `readPrescale`, delegates that one call to chip 0, and adds no call
to a chip with index 1 or more. -/
theorem readPrescale_chip_zero (g : Adafruit_PWMServoDriverGroup)
    (hwf : g.WellFormed) (hchips : 1 ≤ g._nDrivers) :
    ∃ c g1, g._drivers[0]? = some c ∧
      g.readPrescale = .ok (c.readPrescale.1, g1) ∧
      g1.calls = g.calls ++ [(0, Call.readPrescale)] ∧
      ∀ i call, 1 ≤ i → (i, call) ∉ g1.calls.drop g.calls.length := by
  have hlen : 0 < g._drivers.length := by rw [hwf.2.2]; omega
  have hrun : g.readPrescale = _ :=
    invoke_of_some g 0 .readPrescale (fun c => c.readPrescale) _ (List.getElem?_eq_getElem hlen)
  refine ⟨g._drivers[0], _, List.getElem?_eq_getElem hlen, hrun, rfl, ?_⟩
  · intro i call hi
    simp
    omega

/-- The scenario of C7: with 3 chips `readPrescale()` returns the value of chip
0 (0x40 here) and the only call goes to chip 0. -/
theorem readPrescale_chip_zero_witness :
    ∃ g1, sampleGroup.readPrescale = .ok (0x40, g1) ∧ g1.calls = [(0, Call.readPrescale)] := by
  obtain ⟨c, g1, hc, h1, h2, _⟩ :=
    readPrescale_chip_zero sampleGroup sampleGroup_wellFormed (by decide)
  have hc2 : c = sampleDriver 0x40 true 0 := (Option.some.inj hc).symm
  subst hc2
  exact ⟨g1, h1, h2⟩

/-- C8: for a chip id below the chip count, `setOscillatorFrequency(id, freq)`
makes `getOscillatorFrequency(id)` return `freq` and leaves
`getOscillatorFrequency(j)` as it was for every other `j`; the broadcast
`setOscillatorFrequency(freq)` makes `getOscillatorFrequency(j)` return `freq`
for every `j` below the chip count. -/
theorem setOscillatorFrequency_frame (g : Adafruit_PWMServoDriverGroup) (id freq : Nat)
    (hwf : g.WellFormed) (hid : id < g._nDrivers) :
    (∃ g1, g.setOscillatorFrequencyOf id freq = .ok g1 ∧
      (g1.getOscillatorFrequency id).map Prod.fst = .ok freq ∧
      ∀ j, j ≠ id →
        (g1.getOscillatorFrequency j).map Prod.fst = (g.getOscillatorFrequency j).map Prod.fst) ∧
    (∃ g2, g.setOscillatorFrequency freq = .ok g2 ∧
      ∀ j, j < g._nDrivers → (g2.getOscillatorFrequency j).map Prod.fst = .ok freq) := by
  have hlen : id < g._drivers.length := by rw [hwf.2.2]; exact hid
  have hget : ∀ (s : Adafruit_PWMServoDriverGroup) (j : Nat),
      (s.getOscillatorFrequency j).map Prod.fst =
        match s._drivers[j]? with
        | none => .error .outOfBounds
        | some c => .ok c.oscillator_freq := by
    intro s j
    unfold getOscillatorFrequency invoke
    cases s._drivers[j]? <;> rfl
  constructor
  · refine ⟨_, invokeVoid_of_some g id _ _ _ (List.getElem?_eq_getElem hlen), ?_, ?_⟩
    · rw [hget]
      simp only [List.getElem?_set_self hlen]
      rfl
    · intro j hj
      rw [hget, hget]
      simp only [List.getElem?_set_ne (Ne.symm hj)]
  · obtain ⟨g2, hrun, _, hd⟩ := broadcast_calls (.setOscillatorFrequency freq)
      (fun c => c.setOscillatorFrequency freq) g hwf
    refine ⟨g2, hrun, fun j hj => ?_⟩
    rw [hget, hd j hj, List.getElem?_eq_getElem (by rw [hwf.2.2]; exact hj)]
    rfl

/-- Instance of C8 in the 3-chip scenario: after `setOscillatorFrequency(1, 27000000)`
chip 1 reports 27000000 and chips 0 and 2 still report 25000000; after the
broadcast form chip 2 reports 27000000. -/
theorem setOscillatorFrequency_frame_witness :
    (∃ g1, sampleGroup.setOscillatorFrequencyOf 1 27000000 = .ok g1 ∧
      (g1.getOscillatorFrequency 1).map Prod.fst = .ok 27000000 ∧
      (g1.getOscillatorFrequency 0).map Prod.fst = .ok 25000000 ∧
      (g1.getOscillatorFrequency 2).map Prod.fst = .ok 25000000) ∧
    (∃ g2, sampleGroup.setOscillatorFrequency 27000000 = .ok g2 ∧
      (g2.getOscillatorFrequency 2).map Prod.fst = .ok 27000000) := by
  obtain ⟨⟨g1, h1, h2, h3⟩, ⟨g2, h4, h5⟩⟩ :=
    setOscillatorFrequency_frame sampleGroup 1 27000000 sampleGroup_wellFormed (by decide)
  exact ⟨⟨g1, h1, h2, (h3 0 (by decide)).trans rfl, (h3 2 (by decide)).trans rfl⟩,
    ⟨g2, h4, h5 2 (by decide)⟩⟩

/-- C9: on a well-formed group each of `reset`, `sleep`, `wakeup`, `setExtClk`,
`setPWMFreq`, `setOutputMode` and the broadcast `setOscillatorFrequency`
succeeds and adds exactly the calls (0, op arg), (1, op arg), ...,
(`_nDrivers - 1`, op arg), in this order, with the argument it was given. -/
theorem broadcast_in_index_order (g : Adafruit_PWMServoDriverGroup)
    (prescale freq osc : Nat) (totempole : Bool) (hwf : g.WellFormed) :
    (∃ g1, g.reset = .ok g1 ∧
      g1.calls = g.calls ++ (List.range g._nDrivers).map (fun i => (i, Call.reset))) ∧
    (∃ g1, g.sleep = .ok g1 ∧
      g1.calls = g.calls ++ (List.range g._nDrivers).map (fun i => (i, Call.sleep))) ∧
    (∃ g1, g.wakeup = .ok g1 ∧
      g1.calls = g.calls ++ (List.range g._nDrivers).map (fun i => (i, Call.wakeup))) ∧
    (∃ g1, g.setExtClk prescale = .ok g1 ∧
      g1.calls = g.calls ++
        (List.range g._nDrivers).map (fun i => (i, Call.setExtClk prescale))) ∧
    (∃ g1, g.setPWMFreq freq = .ok g1 ∧
      g1.calls = g.calls ++
        (List.range g._nDrivers).map (fun i => (i, Call.setPWMFreq freq))) ∧
    (∃ g1, g.setOutputMode totempole = .ok g1 ∧
      g1.calls = g.calls ++
        (List.range g._nDrivers).map (fun i => (i, Call.setOutputMode totempole))) ∧
    (∃ g1, g.setOscillatorFrequency osc = .ok g1 ∧
      g1.calls = g.calls ++
        (List.range g._nDrivers).map (fun i => (i, Call.setOscillatorFrequency osc))) := by
  refine ⟨?_, ?_, ?_, ?_, ?_, ?_, ?_⟩
  · obtain ⟨g1, h1, h2, _⟩ := broadcast_calls .reset (fun c => c.reset) g hwf
    exact ⟨g1, h1, h2⟩
  · obtain ⟨g1, h1, h2, _⟩ := broadcast_calls .sleep (fun c => c.sleep) g hwf
    exact ⟨g1, h1, h2⟩
  · obtain ⟨g1, h1, h2, _⟩ := broadcast_calls .wakeup (fun c => c.wakeup) g hwf
    exact ⟨g1, h1, h2⟩
  · obtain ⟨g1, h1, h2, _⟩ :=
      broadcast_calls (.setExtClk prescale) (fun c => c.setExtClk prescale) g hwf
    exact ⟨g1, h1, h2⟩
  · obtain ⟨g1, h1, h2, _⟩ :=
      broadcast_calls (.setPWMFreq freq) (fun c => c.setPWMFreq freq) g hwf
    exact ⟨g1, h1, h2⟩
  · obtain ⟨g1, h1, h2, _⟩ :=
      broadcast_calls (.setOutputMode totempole) (fun c => c.setOutputMode totempole) g hwf
    exact ⟨g1, h1, h2⟩
  · obtain ⟨g1, h1, h2, _⟩ :=
      broadcast_calls (.setOscillatorFrequency osc) (fun c => c.setOscillatorFrequency osc) g hwf
    exact ⟨g1, h1, h2⟩

/-- Instance of C9 in the 3-chip scenario: `setExtClk(3)` calls chips 0, 1, 2 in
this order and `reset()` does the same. -/
theorem broadcast_in_index_order_witness :
    (∃ g1, sampleGroup.setExtClk 3 = .ok g1 ∧
      g1.calls = [(0, Call.setExtClk 3), (1, Call.setExtClk 3), (2, Call.setExtClk 3)]) ∧
    (∃ g1, sampleGroup.reset = .ok g1 ∧
      g1.calls = [(0, Call.reset), (1, Call.reset), (2, Call.reset)]) := by
  have h := broadcast_in_index_order sampleGroup 3 50 25000000 true sampleGroup_wellFormed
  obtain ⟨g1, h1, h2⟩ := h.2.2.2.1
  obtain ⟨g0, h3, h4⟩ := h.1
  exact ⟨⟨g1, h1, h2⟩, ⟨g0, h3, h4⟩⟩

end Adafruit_PWMServoDriverGroup
